import Mathlib

/-!
Shallow embedding of the archaeological-catalog program
(`rust-tutorial/examples/cap09_progetto_finale.rs`) and verification of the
claims about its catalog store (`Inventario`), searches and statistics.

Modelling conventions:
* Rust `String` is modelled as `List Char` (UTF-8 is self-synchronizing, so
  byte-level substring search coincides with `Char`-level infix on valid text).
* Rust `u32` identifiers and the `prossimo_id` counter are modelled as `Nat`.
  The program is run with `cargo run --example ...` (debug profile), where
  `u32` overflow panics rather than wraps, so no wrapped counter state is
  reachable; `Nat` therefore models all completing executions faithfully.
* Rust `f64` measurement and coordinate values are modelled as `Rat`
  (exact arithmetic; rounding of IEEE doubles is not modelled — the claims
  concern which values enter each aggregate, not rounding).
* `HashMap<u32, Reperto>` is modelled as an association list
  `List (Nat × Reperto)` with HashMap semantics: `insert` replaces the value
  when the key is present, `get` finds the entry, `remove` deletes it.
  Iteration order of a `HashMap` is unspecified; every claim about iteration
  is stated order-insensitively (membership / permutation) or about the
  explicitly sorted output of `tutti`.
* `str::to_lowercase` is modelled on its ASCII fragment (`Char.toLower`);
  the spec itself (§9) only commits to ASCII-safe lowercasing.
-/

/-- The Unicode `White_Space` code points, as used by Rust `char::is_whitespace`
(and hence `str::trim`). -/
def rustIsWhitespace (c : Char) : Bool :=
  c == '\u0009' || c == '\u000A' || c == '\u000B' || c == '\u000C' ||
  c == '\u000D' || c == ' ' || c == '\u0085' || c == ' ' ||
  c == ' ' || c == ' ' || c == ' ' || c == ' ' ||
  c == ' ' || c == ' ' || c == ' ' || c == ' ' ||
  c == ' ' || c == ' ' || c == ' ' || c == ' ' ||
  c == ' ' || c == ' ' || c == ' ' || c == ' ' ||
  c == '　'

/-- Rust `str::trim`: strip leading and trailing whitespace. -/
def rustTrim (l : List Char) : List Char :=
  ((l.dropWhile rustIsWhitespace).reverse.dropWhile rustIsWhitespace).reverse

/-- ASCII-fragment model of Rust `str::to_lowercase` (see header). -/
def toLowerStr (l : List Char) : List Char :=
  l.map Char.toLower

/-- `pat.isPrefixOf hay` as used by substring search. -/
def prefCheck : List Char → List Char → Bool
  | [], _ => true
  | _ :: _, [] => false
  | a :: ps, b :: hs => a == b && prefCheck ps hs

/-- Rust `str::contains(pat)`: `pat` occurs contiguously inside `hay`. -/
def strContains (hay pat : List Char) : Bool :=
  prefCheck pat hay ||
    match hay with
    | [] => false
    | _ :: t => strContains t pat

/-- Spec-side notion: `pat` is a contiguous substring of `hay`. -/
def isSubstringOf (pat hay : List Char) : Prop :=
  ∃ pre post, hay = pre ++ pat ++ post

/-- `enum Materiale` from module `modelli`. -/
inductive Materiale where
  | Bronzo | Ferro | Oro | Argento | Ceramica | Pietra | Osso
  | Altro (s : List Char)
deriving DecidableEq

/-- `enum Periodo` from module `modelli`. -/
inductive Periodo where
  | BronzoAntico | BronzoMedio | BronzoRecente | BronzoFinale
  | PrimaEtaFerro | Sconosciuto
deriving DecidableEq

/-- `enum Conservazione` from module `modelli`. -/
inductive Conservazione where
  | Integro | Buono | Discreto | Frammentario | Pessimo
deriving DecidableEq

/-- `Conservazione::punteggio`. -/
def Conservazione.punteggio : Conservazione → Nat
  | .Integro => 5
  | .Buono => 4
  | .Discreto => 3
  | .Frammentario => 2
  | .Pessimo => 1

/-- `impl Display for Materiale`. -/
def displayMateriale : Materiale → List Char
  | .Bronzo => "Bronzo".toList
  | .Ferro => "Ferro".toList
  | .Oro => "Oro".toList
  | .Argento => "Argento".toList
  | .Ceramica => "Ceramica".toList
  | .Pietra => "Pietra".toList
  | .Osso => "Osso".toList
  | .Altro s => "Altro: ".toList ++ s

/-- `impl Display for Periodo`. -/
def displayPeriodo : Periodo → List Char
  | .BronzoAntico => "Bronzo Antico (2300-1700 a.C.)".toList
  | .BronzoMedio => "Bronzo Medio (1700-1350 a.C.)".toList
  | .BronzoRecente => "Bronzo Recente (1350-1200 a.C.)".toList
  | .BronzoFinale => "Bronzo Finale (1200-950 a.C.)".toList
  | .PrimaEtaFerro => "Prima Eta del Ferro (950-750 a.C.)".toList
  | .Sconosciuto => "Periodo sconosciuto".toList

/-- `impl Display for Conservazione`. -/
def displayConservazione : Conservazione → List Char
  | .Integro => "Integro".toList
  | .Buono => "Buono".toList
  | .Discreto => "Discreto".toList
  | .Frammentario => "Frammentario".toList
  | .Pessimo => "Pessimo".toList

/-- `struct Coordinate` (f64 fields modelled as `Rat`, see header). -/
structure Coordinate where
  latitudine : Rat
  longitudine : Rat
deriving DecidableEq

/-- `struct Misurazioni` (independently optional measurements). -/
structure Misurazioni where
  lunghezza_cm : Option Rat
  larghezza_cm : Option Rat
  altezza_cm : Option Rat
  peso_grammi : Option Rat
deriving DecidableEq

/-- `struct Reperto` — the artifact record. -/
structure Reperto where
  id : Nat
  nome : List Char
  descrizione : List Char
  materiale : Materiale
  periodo : Periodo
  conservazione : Conservazione
  sito : List Char
  coordinate : Option Coordinate
  misurazioni : Misurazioni
  note : List (List Char)
deriving DecidableEq

/-- `enum ErroreInventario` from module `errori`. -/
inductive ErroreInventario where
  | RepertoNonTrovato (id : Nat)
  | NomeVuoto
  | IdDuplicato (id : Nat)
  | DatiNonValidi (msg : List Char)
  | SerializzazioneErrore (msg : List Char)
deriving DecidableEq

/-- `HashMap::get` on the association-list model. -/
def hmGet (m : List (Nat × Reperto)) (k : Nat) : Option Reperto :=
  (m.find? (fun p => p.1 == k)).map Prod.snd

/-- `HashMap::insert` on the association-list model: replace the entry when
the key is present, otherwise add one. -/
def hmInsert (m : List (Nat × Reperto)) (k : Nat) (v : Reperto) :
    List (Nat × Reperto) :=
  if m.any (fun p => p.1 == k) then
    m.map (fun p => if p.1 == k then (k, v) else p)
  else
    m ++ [(k, v)]

/-- `struct Inventario`: map from identifier to artifact plus the
next-identifier counter. -/
structure Inventario where
  reperti : List (Nat × Reperto)
  prossimo_id : Nat

/-- `Inventario::nuovo`. -/
def nuovo : Inventario := ⟨[], 1⟩

/-- `Inventario::aggiungi`. Returns the Rust result together with the store
after the call (`&mut self` is untouched on the early-return error path). -/
def aggiungi (s : Inventario) (r : Reperto) :
    Except ErroreInventario Nat × Inventario :=
  if (rustTrim r.nome).isEmpty then
    (.error .NomeVuoto, s)
  else
    let id := s.prossimo_id
    (.ok id, ⟨hmInsert s.reperti id { r with id := id }, s.prossimo_id + 1⟩)

/-- `Inventario::cerca_per_id`. -/
def cerca_per_id (s : Inventario) (id : Nat) : Except ErroreInventario Reperto :=
  match hmGet s.reperti id with
  | some r => .ok r
  | none => .error (.RepertoNonTrovato id)

/-- `Inventario::cerca_per_nome`: case-insensitive partial-name search over
the map's values. -/
def cerca_per_nome (s : Inventario) (query : List Char) : List Reperto :=
  let query_lower := toLowerStr query
  (s.reperti.map Prod.snd).filter
    (fun r => strContains (toLowerStr r.nome) query_lower)

/-- `Inventario::cerca_per_materiale`. -/
def cerca_per_materiale (s : Inventario) (materiale : Materiale) : List Reperto :=
  (s.reperti.map Prod.snd).filter (fun r => r.materiale == materiale)

/-- `Inventario::cerca_per_periodo`. -/
def cerca_per_periodo (s : Inventario) (periodo : Periodo) : List Reperto :=
  (s.reperti.map Prod.snd).filter (fun r => r.periodo == periodo)

/-- `Inventario::cerca_per_sito`. -/
def cerca_per_sito (s : Inventario) (sito : List Char) : List Reperto :=
  let sito_lower := toLowerStr sito
  (s.reperti.map Prod.snd).filter
    (fun r => strContains (toLowerStr r.sito) sito_lower)

/-- `Inventario::rimuovi`: `HashMap::remove(&id).ok_or(RepertoNonTrovato id)`. -/
def rimuovi (s : Inventario) (id : Nat) :
    Except ErroreInventario Reperto × Inventario :=
  match hmGet s.reperti id with
  | some r => (.ok r, ⟨s.reperti.filter (fun p => p.1 != id), s.prossimo_id⟩)
  | none => (.error (.RepertoNonTrovato id), s)

/-- `Inventario::aggiungi_nota`: push `nota` onto the notes of the artifact
found by `get_mut`, or fail with `RepertoNonTrovato`. -/
def aggiungi_nota (s : Inventario) (id : Nat) (nota : List Char) :
    Except ErroreInventario Unit × Inventario :=
  match hmGet s.reperti id with
  | some _ =>
      (.ok (), ⟨s.reperti.map (fun p =>
        if p.1 == id then (p.1, { p.2 with note := p.2.note ++ [nota] }) else p),
        s.prossimo_id⟩)
  | none => (.error (.RepertoNonTrovato id), s)

/-- Ordering by identifier used by `tutti` (`sort_by_key(|r| r.id)`). -/
def leById (a b : Reperto) : Prop := a.id ≤ b.id

instance : DecidableRel leById := fun a b => Nat.decLe a.id b.id

instance : IsTotal Reperto leById := ⟨fun a b => Nat.le_total a.id b.id⟩

instance : IsTrans Reperto leById := ⟨fun _ _ _ h h' => Nat.le_trans h h'⟩

/-- `Inventario::tutti`: collect the values and sort them by identifier
(`sort_by_key` is a stable sort; insertion sort is one). -/
def tutti (s : Inventario) : List Reperto :=
  List.insertionSort leById (s.reperti.map Prod.snd)

/-- `Inventario::totale`. -/
def totale (s : Inventario) : Nat := s.reperti.length

/-- The state-changing operations of the store (the searches take `&self`
and cannot change the state). -/
inductive Op where
  | ins (r : Reperto)
  | rem (id : Nat)
  | nota (id : Nat) (testo : List Char)

/-- One step of an operation trace: the store after the call, and the list of
identifiers assigned so far by successful insertions (in call order). -/
def traceStep (p : Inventario × List Nat) (op : Op) : Inventario × List Nat :=
  match op with
  | .ins r =>
      match aggiungi p.1 r with
      | (.ok i, s') => (s', p.2 ++ [i])
      | (.error _, s') => (s', p.2)
  | .rem id => ((rimuovi p.1 id).2, p.2)
  | .nota id t => ((aggiungi_nota p.1 id t).2, p.2)

/-- Run a sequence of operations on a fresh store, collecting the assigned
identifiers. -/
def execTrace (ops : List Op) : Inventario × List Nat :=
  ops.foldl traceStep (nuovo, [])

/-- The store reached from a fresh store by a sequence of operations. -/
def exec (ops : List Op) : Inventario := (execTrace ops).1

/-- Store well-formedness: each stored artifact's `id` field equals its key,
every key is below the counter, and keys are distinct. -/
def StoreInv (s : Inventario) : Prop :=
  (∀ p ∈ s.reperti, p.2.id = p.1 ∧ p.1 < s.prossimo_id) ∧
    (s.reperti.map Prod.fst).Nodup

/-- Accumulator of the statistics loop in `statistiche::genera_report`. -/
structure StatAcc where
  per_materiale : List (List Char × Nat)
  per_periodo : List (List Char × Nat)
  per_sito : List (List Char × Nat)
  per_conservazione : List (List Char × Nat)
  peso_totale : Rat
  count_peso : Nat
  somma_conservazione : Nat

/-- `*map.entry(k).or_insert(0) += 1` on the association-list model. -/
def bump (m : List (List Char × Nat)) (k : List Char) : List (List Char × Nat) :=
  if m.any (fun p => p.1 == k) then
    m.map (fun p => if p.1 == k then (p.1, p.2 + 1) else p)
  else
    m ++ [(k, 1)]

/-- Body of the `for reperto in reperti` loop of `genera_report`. -/
def statStep (a : StatAcc) (r : Reperto) : StatAcc :=
  { per_materiale := bump a.per_materiale (displayMateriale r.materiale)
    per_periodo := bump a.per_periodo (displayPeriodo r.periodo)
    per_sito := bump a.per_sito r.sito
    per_conservazione :=
      bump a.per_conservazione (displayConservazione r.conservazione)
    peso_totale :=
      match r.misurazioni.peso_grammi with
      | some peso => a.peso_totale + peso
      | none => a.peso_totale
    count_peso :=
      match r.misurazioni.peso_grammi with
      | some _ => a.count_peso + 1
      | none => a.count_peso
    somma_conservazione := a.somma_conservazione + r.conservazione.punteggio }

/-- `struct ReportStatistiche` (counters as association lists, `f64` as `Rat`). -/
structure ReportStatistiche where
  totale_reperti : Nat
  per_materiale : List (List Char × Nat)
  per_periodo : List (List Char × Nat)
  per_sito : List (List Char × Nat)
  per_conservazione : List (List Char × Nat)
  peso_medio : Option Rat
  peso_totale : Rat
  punteggio_conservazione_medio : Rat

/-- `statistiche::genera_report`. -/
def genera_report (reperti : List Reperto) : ReportStatistiche :=
  let acc := reperti.foldl statStep ⟨[], [], [], [], 0, 0, 0⟩
  { totale_reperti := reperti.length
    per_materiale := acc.per_materiale
    per_periodo := acc.per_periodo
    per_sito := acc.per_sito
    per_conservazione := acc.per_conservazione
    peso_medio :=
      if acc.count_peso > 0 then some (acc.peso_totale / (acc.count_peso : Rat))
      else none
    peso_totale := acc.peso_totale
    punteggio_conservazione_medio :=
      if reperti ≠ [] then (acc.somma_conservazione : Rat) / (reperti.length : Rat)
      else 0 }

/-- Strict version of the `tutti` ordering. -/
def ltById (a b : Reperto) : Prop := a.id < b.id

instance : IsAntisymm Reperto ltById :=
  ⟨fun _ _ h1 h2 => absurd h2 (Nat.lt_asymm h1)⟩

/-- N successive `aggiungi_nota` calls with the same identifier
(`AppendNote` iterated over a list of texts, keeping the store each time). -/
def appendNotes (s : Inventario) (id : Nat) (ts : List (List Char)) : Inventario :=
  ts.foldl (fun st t => (aggiungi_nota st id t).2) s

/-- A concrete artifact (used to instantiate theorems with hypotheses). -/
def testReperto : Reperto :=
  { id := 0
    nome := "Ascia".toList
    descrizione := "Ascia in bronzo".toList
    materiale := .Bronzo
    periodo := .BronzoFinale
    conservazione := .Buono
    sito := "Savignano Irpino".toList
    coordinate := none
    misurazioni := ⟨none, none, none, some 350⟩
    note := [] }

/-- A second concrete artifact. -/
def testReperto2 : Reperto :=
  { testReperto with
    nome := "Spada".toList
    misurazioni := ⟨none, none, none, none⟩ }

/-- An artifact whose name is whitespace-only. -/
def wsReperto : Reperto := { testReperto with nome := [' ', ' '] }

/-- A concrete two-artifact store reached from `nuovo`. -/
def storeA : Inventario := exec [Op.ins testReperto, Op.ins testReperto2]

/-! ### Helper lemmas: trimming and substring search -/

theorem rustTrim_eq_nil_of_all_ws (l : List Char)
    (h : ∀ c ∈ l, rustIsWhitespace c = true) : rustTrim l = [] := by
  have h1 : l.dropWhile rustIsWhitespace = [] :=
    List.dropWhile_eq_nil_iff.mpr h
  simp [rustTrim, h1]

theorem prefCheck_iff (pat hay : List Char) :
    prefCheck pat hay = true ↔ ∃ rest, hay = pat ++ rest := by
  induction pat generalizing hay with
  | nil => simp [prefCheck]
  | cons a ps ih =>
    cases hay with
    | nil =>
      simp [prefCheck]
    | cons b hs =>
      simp only [prefCheck, Bool.and_eq_true, beq_iff_eq, ih, List.cons_append]
      constructor
      · rintro ⟨rfl, rest, rfl⟩
        exact ⟨rest, rfl⟩
      · rintro ⟨rest, heq⟩
        injection heq with h1 h2
        exact ⟨h1.symm, rest, h2⟩

theorem strContains_iff (hay pat : List Char) :
    strContains hay pat = true ↔ isSubstringOf pat hay := by
  induction hay with
  | nil =>
    simp only [strContains, Bool.or_eq_true, prefCheck_iff, isSubstringOf]
    constructor
    · rintro (⟨rest, heq⟩ | hfalse)
      · exact ⟨[], rest, by simpa using heq⟩
      · cases hfalse
    · rintro ⟨pre, post, heq⟩
      have h1 : pre = [] ∧ pat = [] ∧ post = [] := by
        simpa [List.append_eq_nil] using heq.symm
      exact Or.inl ⟨post, by simp [h1.2.1, h1.2.2]⟩
  | cons c t ih =>
    simp only [strContains, Bool.or_eq_true, prefCheck_iff, ih, isSubstringOf]
    constructor
    · rintro (⟨rest, heq⟩ | ⟨pre, post, heq⟩)
      · exact ⟨[], rest, by simp [heq]⟩
      · exact ⟨c :: pre, post, by simp [heq]⟩
    · rintro ⟨pre, post, heq⟩
      cases pre with
      | nil => exact Or.inl ⟨post, by simpa using heq⟩
      | cons p ps =>
        rw [List.cons_append, List.cons_append] at heq
        injection heq with h1 h2
        exact Or.inr ⟨ps, post, by simpa using h2⟩

theorem strContains_nil_pat (hay : List Char) : strContains hay [] = true := by
  cases hay <;> simp [strContains, prefCheck]

/-! ### Helper lemmas: the association-list HashMap model -/

theorem find?_map_replace (m : List (Nat × Reperto)) (k : Nat) (v : Reperto)
    (h : m.any (fun p => p.1 == k) = true) :
    (m.map (fun p => if p.1 == k then (k, v) else p)).find? (fun p => p.1 == k) =
      some (k, v) := by
  induction m with
  | nil => simp at h
  | cons a m ih =>
    by_cases hk : a.1 = k
    · simp [List.find?_cons, hk]
    · have hb : (a.1 == k) = false := by simpa using hk
      have h2 : m.any (fun p => p.1 == k) = true := by
        simpa [List.any_cons, hb] using h
      simp only [List.map_cons]
      simp only [hb, Bool.false_eq_true, if_false]
      rw [List.find?_cons_of_neg _ (by simpa using hk)]
      exact ih h2

theorem find?_append_fresh (m : List (Nat × Reperto)) (k : Nat) (v : Reperto)
    (h : m.any (fun p => p.1 == k) = false) :
    (m ++ [(k, v)]).find? (fun p => p.1 == k) = some (k, v) := by
  induction m with
  | nil => simp
  | cons a m ih =>
    simp only [List.any_cons, Bool.or_eq_false_iff] at h
    rw [List.cons_append, List.find?_cons_of_neg _ (by simp [h.1])]
    exact ih h.2

theorem hmGet_hmInsert_self (m : List (Nat × Reperto)) (k : Nat) (v : Reperto) :
    hmGet (hmInsert m k v) k = some v := by
  unfold hmGet hmInsert
  by_cases h : m.any (fun p => p.1 == k) = true
  · rw [if_pos h, find?_map_replace m k v h]
    rfl
  · rw [if_neg h, find?_append_fresh m k v (Bool.not_eq_true _ ▸ h)]
    rfl

theorem hmGet_eq_none (m : List (Nat × Reperto)) (k : Nat) :
    hmGet m k = none ↔ ∀ p ∈ m, p.1 ≠ k := by
  simp [hmGet, List.find?_eq_none]

theorem hmGet_filter_ne (m : List (Nat × Reperto)) (k : Nat) :
    hmGet (m.filter (fun p => p.1 != k)) k = none := by
  rw [hmGet_eq_none]
  intro p hp
  have h2 := (List.mem_filter.mp hp).2
  simpa using h2

theorem hmInsert_fresh (m : List (Nat × Reperto)) (k : Nat) (v : Reperto)
    (h : ∀ p ∈ m, p.1 ≠ k) : hmInsert m k v = m ++ [(k, v)] := by
  unfold hmInsert
  have h2 : m.any (fun p => p.1 == k) = false := by
    simp only [List.any_eq_false]
    intro p hp
    simpa using h p hp
  simp [h2]

theorem hmGet_map_nota (m : List (Nat × Reperto)) (id : Nat) (t : List Char)
    (r : Reperto) (h : hmGet m id = some r) :
    hmGet (m.map (fun p =>
        if p.1 == id then (p.1, { p.2 with note := p.2.note ++ [t] }) else p)) id
      = some { r with note := r.note ++ [t] } := by
  induction m with
  | nil => simp [hmGet] at h
  | cons a m ih =>
    by_cases hk : a.1 = id
    · have hb : (a.1 == id) = true := by simpa using hk
      simp only [hmGet, List.find?_cons, hb, Option.map_some'] at h
      obtain rfl : a.2 = r := Option.some.inj h
      simp only [hmGet, List.map_cons, hb, if_true, List.find?_cons,
        Option.map_some']
    · have hb : (a.1 == id) = false := by simpa using hk
      simp only [hmGet, List.find?_cons, hb] at h
      simp only [hmGet, List.map_cons, hb, Bool.false_eq_true, if_false,
        List.find?_cons]
      exact ih h

/-! ### Helper lemmas: the store invariant and operation traces -/

theorem aggiungi_ok_id (s : Inventario) (r : Reperto) (i : Nat)
    (h : (aggiungi s r).1 = .ok i) :
    i = s.prossimo_id ∧ (aggiungi s r).2.prossimo_id = s.prossimo_id + 1 := by
  unfold aggiungi at h ⊢
  by_cases hn : (rustTrim r.nome).isEmpty
  · simp [hn] at h
  · simp only [hn, Bool.false_eq_true, if_false] at h ⊢
    exact ⟨(Except.ok.inj h).symm, by trivial⟩

theorem storeInv_nuovo : StoreInv nuovo := by
  simp [StoreInv, nuovo]

theorem storeInv_aggiungi (s : Inventario) (r : Reperto) (h : StoreInv s) :
    StoreInv (aggiungi s r).2 := by
  unfold aggiungi
  by_cases hn : (rustTrim r.nome).isEmpty
  · simpa [hn] using h
  · simp only [hn, Bool.false_eq_true, if_false]
    have hfresh : ∀ p ∈ s.reperti, p.1 ≠ s.prossimo_id := fun p hp =>
      Nat.ne_of_lt (h.1 p hp).2
    constructor
    · intro p hp
      rw [hmInsert_fresh _ _ _ hfresh] at hp
      rcases List.mem_append.mp hp with hp | hp
      · exact ⟨(h.1 p hp).1, Nat.lt_succ_of_lt (h.1 p hp).2⟩
      · simp only [List.mem_singleton] at hp
        subst hp
        exact ⟨rfl, Nat.lt_succ_self _⟩
    · show ((hmInsert s.reperti s.prossimo_id _).map Prod.fst).Nodup
      rw [hmInsert_fresh _ _ _ hfresh, List.map_append]
      refine h.2.append (by simp) ?_
      intro a ha hb
      simp only [List.map_cons, List.map_nil, List.mem_singleton] at hb
      subst hb
      obtain ⟨p, hp, hpe⟩ := List.mem_map.mp ha
      exact absurd (hpe ▸ (h.1 p hp).2) (Nat.lt_irrefl _)

theorem storeInv_rimuovi (s : Inventario) (id : Nat) (h : StoreInv s) :
    StoreInv (rimuovi s id).2 := by
  unfold rimuovi
  cases hg : hmGet s.reperti id with
  | none => simpa using h
  | some r =>
    constructor
    · intro p hp
      exact h.1 p (List.mem_of_mem_filter hp)
    · exact h.2.sublist ((List.filter_sublist _).map Prod.fst)

theorem storeInv_nota (s : Inventario) (id : Nat) (t : List Char)
    (h : StoreInv s) : StoreInv (aggiungi_nota s id t).2 := by
  unfold aggiungi_nota
  cases hg : hmGet s.reperti id with
  | none => simpa using h
  | some r =>
    constructor
    · intro p hp
      obtain ⟨q, hq, rfl⟩ := List.mem_map.mp hp
      by_cases hk : q.1 = id
      · simp only [show (q.1 == id) = true from by simpa using hk, if_true]
        exact ⟨(h.1 q hq).1, (h.1 q hq).2⟩
      · simp only [show (q.1 == id) = false from by simpa using hk,
          Bool.false_eq_true, if_false]
        exact h.1 q hq
    · show ((s.reperti.map _).map Prod.fst).Nodup
      rw [List.map_map]
      have hkeys : s.reperti.map
          (Prod.fst ∘ fun p => if p.1 == id then
            (p.1, { p.2 with note := p.2.note ++ [t] }) else p) =
          s.reperti.map Prod.fst := by
        apply List.map_congr_left
        intro p _
        by_cases hk : p.1 = id <;> simp [hk]
      rw [hkeys]
      exact h.2

theorem traceStep_ins (p : Inventario × List Nat) (r : Reperto) :
    traceStep p (.ins r) =
      match aggiungi p.1 r with
      | (.ok i, s') => (s', p.2 ++ [i])
      | (.error _, s') => (s', p.2) := rfl

theorem storeInv_traceStep (p : Inventario × List Nat) (op : Op)
    (h : StoreInv p.1) : StoreInv (traceStep p op).1 := by
  cases op with
  | ins r =>
    have h2 := storeInv_aggiungi p.1 r h
    rw [traceStep_ins]
    cases hres : aggiungi p.1 r with
    | mk res s' =>
      rw [hres] at h2
      cases res <;> simpa using h2
  | rem id => exact storeInv_rimuovi p.1 id h
  | nota id t => exact storeInv_nota p.1 id t h

theorem storeInv_foldl (ops : List Op) (p : Inventario × List Nat)
    (h : StoreInv p.1) : StoreInv (ops.foldl traceStep p).1 := by
  induction ops generalizing p with
  | nil => simpa using h
  | cons op ops ih => exact ih _ (storeInv_traceStep p op h)

theorem storeInv_exec (ops : List Op) : StoreInv (exec ops) :=
  storeInv_foldl ops (nuovo, []) storeInv_nuovo

theorem prossimo_id_mono (p : Inventario × List Nat) (op : Op) :
    p.1.prossimo_id ≤ (traceStep p op).1.prossimo_id := by
  cases op with
  | ins r =>
    unfold traceStep aggiungi
    by_cases hn : (rustTrim r.nome).isEmpty
    · simp [hn]
    · simp [hn]
  | rem id =>
    unfold traceStep rimuovi
    cases hg : hmGet p.1.reperti id <;> simp [hg]
  | nota id t =>
    unfold traceStep aggiungi_nota
    cases hg : hmGet p.1.reperti id <;> simp [hg]

theorem assigned_lt_foldl (ops : List Op) (p : Inventario × List Nat)
    (h : ∀ a ∈ p.2, a < p.1.prossimo_id) :
    ∀ a ∈ (ops.foldl traceStep p).2, a < (ops.foldl traceStep p).1.prossimo_id := by
  induction ops generalizing p with
  | nil => simpa using h
  | cons op ops ih =>
    refine ih (traceStep p op) ?_
    cases op with
    | ins r =>
      rw [traceStep_ins]
      cases hres : aggiungi p.1 r with
      | mk res s' =>
        cases res with
        | ok i =>
          have hc := aggiungi_ok_id p.1 r i (by rw [hres])
          have hs' : s'.prossimo_id = p.1.prossimo_id + 1 := by
            have h2 := hc.2
            rw [hres] at h2
            exact h2
          show ∀ a ∈ p.2 ++ [i], a < s'.prossimo_id
          intro a ha
          simp only [List.mem_append, List.mem_singleton] at ha
          rcases ha with ha | ha
          · rw [hs']
            exact Nat.lt_succ_of_lt (h a ha)
          · subst ha
            rw [hs', hc.1]
            exact Nat.lt_succ_self _
        | error e =>
          show ∀ a ∈ p.2, a < s'.prossimo_id
          intro a ha
          have hmono := prossimo_id_mono p (.ins r)
          rw [traceStep_ins, hres] at hmono
          exact Nat.lt_of_lt_of_le (h a ha) hmono
    | rem id =>
      intro a ha
      exact Nat.lt_of_lt_of_le (h a ha) (prossimo_id_mono p (.rem id))
    | nota id t =>
      intro a ha
      exact Nat.lt_of_lt_of_le (h a ha) (prossimo_id_mono p (.nota id t))

/-! ### Helper lemmas: `tutti` (sorting) and contents determinism -/


theorem tutti_perm (s : Inventario) : (tutti s).Perm (s.reperti.map Prod.snd) :=
  List.perm_insertionSort leById _

theorem tutti_sorted_le (s : Inventario) : List.Sorted leById (tutti s) :=
  List.sorted_insertionSort leById _

theorem tutti_ids_nodup (s : Inventario) (h : StoreInv s) :
    ((tutti s).map Reperto.id).Nodup := by
  have hperm : ((tutti s).map Reperto.id).Perm
      ((s.reperti.map Prod.snd).map Reperto.id) := (tutti_perm s).map _
  have hval : (s.reperti.map Prod.snd).map Reperto.id = s.reperti.map Prod.fst := by
    rw [List.map_map]
    apply List.map_congr_left
    intro p hp
    exact (h.1 p hp).1
  rw [hval] at hperm
  exact hperm.nodup_iff.mpr h.2

theorem tutti_sorted_lt (s : Inventario) (h : StoreInv s) :
    List.Sorted ltById (tutti s) := by
  have hs := tutti_sorted_le s
  have hne : (tutti s).Pairwise (fun a b => a.id ≠ b.id) :=
    List.pairwise_map.mp (tutti_ids_nodup s h)
  exact (hs.and hne).imp (fun hab => Nat.lt_of_le_of_ne hab.1 hab.2)

theorem mem_iff_hmGet (m : List (Nat × Reperto))
    (hd : (m.map Prod.fst).Nodup) (k : Nat) (v : Reperto) :
    (k, v) ∈ m ↔ hmGet m k = some v := by
  induction m with
  | nil => simp [hmGet]
  | cons a m ih =>
    obtain ⟨ak, av⟩ := a
    simp only [List.map_cons, List.nodup_cons] at hd
    by_cases hk : ak = k
    · subst hk
      constructor
      · intro hm
        rcases List.mem_cons.mp hm with heq | hm
        · obtain ⟨-, rfl⟩ := Prod.mk.inj heq
          simp [hmGet, List.find?_cons]
        · exact absurd (List.mem_map.mpr ⟨(ak, v), hm, rfl⟩) hd.1
      · intro hg
        simp only [hmGet, List.find?_cons] at hg
        simp only [beq_self_eq_true] at hg
        obtain rfl : av = v := Option.some.inj hg
        exact List.mem_cons_self _ _
    · have hb : (ak == k) = false := by simpa using hk
      constructor
      · intro hm
        rcases List.mem_cons.mp hm with heq | hm
        · exact absurd (congrArg Prod.fst heq.symm) hk
        · have := (ih hd.2).mp hm
          simpa [hmGet, List.find?_cons, hb] using this
      · intro hg
        simp only [hmGet, List.find?_cons, hb] at hg
        exact List.mem_cons_of_mem _ ((ih hd.2).mpr hg)

theorem entries_perm_of_hmGet_eq (m1 m2 : List (Nat × Reperto))
    (h1 : (m1.map Prod.fst).Nodup) (h2 : (m2.map Prod.fst).Nodup)
    (hg : ∀ k, hmGet m1 k = hmGet m2 k) : m1.Perm m2 := by
  apply (List.perm_ext_iff_of_nodup (List.Nodup.of_map Prod.fst h1)
    (List.Nodup.of_map Prod.fst h2)).mpr
  rintro ⟨k, v⟩
  rw [mem_iff_hmGet m1 h1, mem_iff_hmGet m2 h2, hg k]

theorem tutti_eq_of_same_contents (s s' : Inventario)
    (h : StoreInv s) (h' : StoreInv s')
    (hg : ∀ k, hmGet s.reperti k = hmGet s'.reperti k) : tutti s = tutti s' := by
  have hperm : (tutti s).Perm (tutti s') :=
    ((tutti_perm s).trans
      ((entries_perm_of_hmGet_eq _ _ h.2 h'.2 hg).map Prod.snd)).trans
      (tutti_perm s').symm
  exact List.eq_of_perm_of_sorted hperm (tutti_sorted_lt s h) (tutti_sorted_lt s' h')

/-! ### Helper lemmas: statistics -/

theorem statStep_foldl_peso (rs : List Reperto) (a : StatAcc) :
    (rs.foldl statStep a).peso_totale =
        a.peso_totale + (rs.filterMap (fun r => r.misurazioni.peso_grammi)).sum ∧
      (rs.foldl statStep a).count_peso =
        a.count_peso + (rs.filterMap (fun r => r.misurazioni.peso_grammi)).length := by
  induction rs generalizing a with
  | nil => simp
  | cons r rs ih =>
    rcases ih (statStep a r) with ⟨ih1, ih2⟩
    cases hw : r.misurazioni.peso_grammi with
    | some w =>
      have e1 : (statStep a r).peso_totale = a.peso_totale + w := by
        simp [statStep, hw]
      have e2 : (statStep a r).count_peso = a.count_peso + 1 := by
        simp [statStep, hw]
      constructor
      · rw [List.foldl_cons, ih1, e1]
        simp only [List.filterMap_cons, hw, List.sum_cons]
        ring
      · rw [List.foldl_cons, ih2, e2]
        simp only [List.filterMap_cons, hw, List.length_cons]
        omega
    | none =>
      have e1 : (statStep a r).peso_totale = a.peso_totale := by
        simp [statStep, hw]
      have e2 : (statStep a r).count_peso = a.count_peso := by
        simp [statStep, hw]
      constructor
      · rw [List.foldl_cons, ih1, e1]
        simp only [List.filterMap_cons, hw]
      · rw [List.foldl_cons, ih2, e2]
        simp only [List.filterMap_cons, hw]


theorem appendNotes_get (s : Inventario) (id : Nat) (r : Reperto)
    (ts : List (List Char)) (h : hmGet s.reperti id = some r) :
    hmGet (appendNotes s id ts).reperti id = some { r with note := r.note ++ ts } := by
  induction ts generalizing s r with
  | nil => simpa using h
  | cons t ts ih =>
    have hstep : hmGet ((aggiungi_nota s id t).2).reperti id =
        some { r with note := r.note ++ [t] } := by
      unfold aggiungi_nota
      simp only [h]
      exact hmGet_map_nota s.reperti id t r h
    have hrec := ih _ _ hstep
    rw [show appendNotes s id (t :: ts) =
      appendNotes (aggiungi_nota s id t).2 id ts from rfl]
    rw [hrec]
    simp

/-! ### The claims -/

/-- C1: for every store reached from a fresh store by any sequence of
operations, a successful `Insert` returns an identifier strictly greater than
every identifier previously assigned in that store's lifetime (hence an
identifier freed by `Remove`, which stays in the assigned-identifier history,
is never reissued); the counter starts at 1 and is incremented by one on every
successful insertion. -/
theorem c1_insert_id_monotonic (ops : List Op) (r : Reperto) (i : Nat)
    (h : (aggiungi (exec ops) r).1 = .ok i) :
    nuovo.prossimo_id = 1 ∧
      (∀ a ∈ (execTrace ops).2, a < i) ∧
      (aggiungi (exec ops) r).2.prossimo_id = (exec ops).prossimo_id + 1 := by
  obtain ⟨hi, hinc⟩ := aggiungi_ok_id (exec ops) r i h
  refine ⟨rfl, ?_, hinc⟩
  intro a ha
  rw [hi]
  exact assigned_lt_foldl ops (nuovo, []) (by simp) a ha

/-- Witness for C1: after inserting one artifact (id 1) and removing it, the
next successful insert still returns the larger id 2 and bumps the counter. -/
theorem c1_insert_id_monotonic_witness :
    nuovo.prossimo_id = 1 ∧
      (∀ a ∈ (execTrace [Op.ins testReperto, Op.rem 1]).2, a < 2) ∧
      (aggiungi (exec [Op.ins testReperto, Op.rem 1]) testReperto2).2.prossimo_id =
        (exec [Op.ins testReperto, Op.rem 1]).prossimo_id + 1 :=
  c1_insert_id_monotonic [Op.ins testReperto, Op.rem 1] testReperto2 2 (by rfl)

/-- C2: inserting a record whose name is empty or all-whitespace fails with
`NomeVuoto`, consumes no identifier (the counter is unchanged), and leaves the
store — hence `Count()` — unchanged. -/
theorem c2_empty_name_rejected (s : Inventario) (r : Reperto)
    (h : ∀ c ∈ r.nome, rustIsWhitespace c = true) :
    aggiungi s r = (.error .NomeVuoto, s) ∧
      (aggiungi s r).2.prossimo_id = s.prossimo_id ∧
      totale (aggiungi s r).2 = totale s := by
  have ht : (rustTrim r.nome).isEmpty = true := by
    rw [rustTrim_eq_nil_of_all_ws r.nome h]
    rfl
  unfold aggiungi
  simp [ht]

/-- Witness for C2 with a whitespace-only name on the fresh store. -/
theorem c2_empty_name_rejected_witness :
    aggiungi nuovo wsReperto = (.error .NomeVuoto, nuovo) ∧
      (aggiungi nuovo wsReperto).2.prossimo_id = nuovo.prossimo_id ∧
      totale (aggiungi nuovo wsReperto).2 = totale nuovo :=
  c2_empty_name_rejected nuovo wsReperto (by decide)

/-- C3: after a successful insert returning identifier `i`, `GetById i`
succeeds and yields the inserted record with its `id` field set to `i` (all
other fields unchanged). -/
theorem c3_get_after_insert (s : Inventario) (r : Reperto) (i : Nat)
    (h : (aggiungi s r).1 = .ok i) :
    cerca_per_id (aggiungi s r).2 i = .ok { r with id := i } := by
  unfold aggiungi at h ⊢
  by_cases hn : (rustTrim r.nome).isEmpty
  · simp [hn] at h
  · simp only [hn, Bool.false_eq_true, if_false] at h ⊢
    obtain rfl : s.prossimo_id = i := Except.ok.inj h
    simp [cerca_per_id, hmGet_hmInsert_self]

/-- Witness for C3 on the fresh store. -/
theorem c3_get_after_insert_witness :
    cerca_per_id (aggiungi nuovo testReperto).2 1 = .ok { testReperto with id := 1 } :=
  c3_get_after_insert nuovo testReperto 1 (by rfl)

/-- C4: `Remove(id)` returns the stored artifact and deletes it when the
identifier is present (so `GetById(id)` then fails with `RepertoNonTrovato id`),
and fails with `RepertoNonTrovato id`, leaving the store unchanged, when it is
absent. -/
theorem c4_remove_semantics (s : Inventario) (id : Nat) (r : Reperto) :
    (hmGet s.reperti id = some r →
        (rimuovi s id).1 = .ok r ∧
          cerca_per_id (rimuovi s id).2 id = .error (.RepertoNonTrovato id)) ∧
      (hmGet s.reperti id = none →
        rimuovi s id = (.error (.RepertoNonTrovato id), s)) := by
  constructor
  · intro hg
    unfold rimuovi
    simp only [hg]
    refine ⟨by trivial, ?_⟩
    simp [cerca_per_id, hmGet_filter_ne]
  · intro hg
    unfold rimuovi
    simp [hg]

/-- Witness for C4: removing the only artifact of a one-artifact store. -/
theorem c4_remove_semantics_witness :
    (rimuovi (aggiungi nuovo testReperto).2 1).1 = .ok { testReperto with id := 1 } ∧
      cerca_per_id (rimuovi (aggiungi nuovo testReperto).2 1).2 1 =
        .error (.RepertoNonTrovato 1) :=
  (c4_remove_semantics (aggiungi nuovo testReperto).2 1
    { testReperto with id := 1 }).1 (by rfl)

/-- C5: `FindByName(q)` returns exactly the stored artifacts whose lowercased
name has the lowercased query as a contiguous substring (an empty list — never
an error — when nothing matches), and with the empty query it returns every
stored artifact. -/
theorem c5_find_by_name (s : Inventario) (q : List Char) :
    (∀ r, r ∈ cerca_per_nome s q ↔
        r ∈ s.reperti.map Prod.snd ∧
          isSubstringOf (toLowerStr q) (toLowerStr r.nome)) ∧
      cerca_per_nome s [] = s.reperti.map Prod.snd := by
  constructor
  · intro r
    simp only [cerca_per_nome, List.mem_filter, strContains_iff]
  · show (s.reperti.map Prod.snd).filter
        (fun r => strContains (toLowerStr r.nome) (toLowerStr [])) =
      s.reperti.map Prod.snd
    rw [show toLowerStr [] = [] from rfl]
    apply List.filter_eq_self.mpr
    intro r _
    exact strContains_nil_pat _

/-- C6: `AppendNote` succeeds on a present identifier, and N successive
appends extend that artifact's note list by exactly the appended texts, at the
end, in call order; on an absent identifier it fails with
`RepertoNonTrovato id` and leaves the store unchanged. -/
theorem c6_append_note (s : Inventario) (id : Nat) (r : Reperto)
    (ts : List (List Char)) (t : List Char) :
    (hmGet s.reperti id = some r →
        (aggiungi_nota s id t).1 = .ok () ∧
          hmGet (appendNotes s id ts).reperti id =
            some { r with note := r.note ++ ts }) ∧
      (hmGet s.reperti id = none →
        aggiungi_nota s id t = (.error (.RepertoNonTrovato id), s)) := by
  constructor
  · intro hg
    refine ⟨?_, appendNotes_get s id r ts hg⟩
    unfold aggiungi_nota
    simp [hg]
  · intro hg
    unfold aggiungi_nota
    simp [hg]

/-- Witness for C6: two appends on the only artifact of a one-artifact store. -/
theorem c6_append_note_witness :
    (aggiungi_nota (aggiungi nuovo testReperto).2 1 "analisi".toList).1 = .ok () ∧
      hmGet (appendNotes (aggiungi nuovo testReperto).2 1
          ["analisi".toList, "patina".toList]).reperti 1 =
        some { { testReperto with id := 1 } with
          note := testReperto.note ++ ["analisi".toList, "patina".toList] } :=
  (c6_append_note (aggiungi nuovo testReperto).2 1 { testReperto with id := 1 }
    ["analisi".toList, "patina".toList] "analisi".toList).1 (by rfl)

/-- C7: on any well-formed store, `ListAll` returns exactly the artifacts held
(a permutation of the stored values, with no duplicates), in strictly
ascending identifier order, and its output is determined by the store's
contents alone: two well-formed stores with identical lookup functions yield
identical `ListAll` output, regardless of insertion/removal history. -/
theorem c7_listall (s s' : Inventario) (h : StoreInv s) (h' : StoreInv s') :
    (tutti s).Perm (s.reperti.map Prod.snd) ∧
      (tutti s).Nodup ∧
      List.Sorted ltById (tutti s) ∧
      ((∀ k, hmGet s.reperti k = hmGet s'.reperti k) → tutti s = tutti s') :=
  ⟨tutti_perm s, List.Nodup.of_map Reperto.id (tutti_ids_nodup s h),
    tutti_sorted_lt s h, fun hg => tutti_eq_of_same_contents s s' h h' hg⟩

/-- Witness for C7 on a concrete two-artifact store. -/
theorem c7_listall_witness :
    (tutti storeA).Perm (storeA.reperti.map Prod.snd) ∧
      (tutti storeA).Nodup ∧
      List.Sorted ltById (tutti storeA) ∧
      ((∀ k, hmGet storeA.reperti k = hmGet storeA.reperti k) →
        tutti storeA = tutti storeA) :=
  c7_listall storeA storeA (by unfold StoreInv; decide) (by unfold StoreInv; decide)

/-- C8: the report's average weight is `none` exactly when no artifact has a
weight measurement, and otherwise equals the sum of the present weight values
divided by the number of artifacts that have one (artifacts without a weight
enter neither the sum nor the count). -/
theorem c8_average_weight (rs : List Reperto) :
    (genera_report rs).peso_medio =
      if (rs.filterMap (fun r => r.misurazioni.peso_grammi)).length = 0 then none
      else some ((rs.filterMap (fun r => r.misurazioni.peso_grammi)).sum /
        ((rs.filterMap (fun r => r.misurazioni.peso_grammi)).length : Rat)) := by
  obtain ⟨h1, h2⟩ := statStep_foldl_peso rs ⟨[], [], [], [], 0, 0, 0⟩
  simp only [genera_report, h1, h2, Nat.zero_add, zero_add]
  by_cases hl : (rs.filterMap (fun r => r.misurazioni.peso_grammi)).length = 0
  · simp [hl]
  · simp [hl, Nat.pos_of_ne_zero hl]

/-- C9: every store reachable from a fresh store satisfies the
representation invariant: each stored artifact's `id` field equals its map
key, and every key is strictly below the next-identifier counter. -/
theorem c9_store_invariant (ops : List Op) :
    ∀ p ∈ (exec ops).reperti, p.2.id = p.1 ∧ p.1 < (exec ops).prossimo_id :=
  (storeInv_exec ops).1

/-- C10: `Insert` ignores the caller-supplied identifier (its result is the
same for any value of the record's `id` field), the assigned key is always
fresh on a well-formed store (no duplicate-identifier insertion can occur),
and every error any store operation returns is `RepertoNonTrovato` or
`NomeVuoto` — the declared variants `IdDuplicato` and `DatiNonValidi` are
never produced (`to_json` reports failures on the separate
`serde_json::Error` channel). -/
theorem c10_error_taxonomy (s : Inventario) (r : Reperto) (x : Nat)
    (id : Nat) (t : List Char) (e : ErroreInventario) :
    aggiungi s { r with id := x } = aggiungi s r ∧
      (StoreInv s → hmGet s.reperti s.prossimo_id = none) ∧
      ((aggiungi s r).1 = .error e → e = .NomeVuoto) ∧
      ((rimuovi s id).1 = .error e → e = .RepertoNonTrovato id) ∧
      (cerca_per_id s id = .error e → e = .RepertoNonTrovato id) ∧
      ((aggiungi_nota s id t).1 = .error e → e = .RepertoNonTrovato id) := by
  refine ⟨?_, ?_, ?_, ?_, ?_, ?_⟩
  · by_cases hn : (rustTrim r.nome).isEmpty <;> simp [aggiungi, hn]
  · intro h
    exact (hmGet_eq_none _ _).mpr (fun p hp => Nat.ne_of_lt (h.1 p hp).2)
  · intro h
    unfold aggiungi at h
    by_cases hn : (rustTrim r.nome).isEmpty
    · simp only [hn, if_true] at h
      exact (Except.error.inj h).symm
    · simp [hn] at h
  · intro h
    unfold rimuovi at h
    cases hg : hmGet s.reperti id with
    | some r' =>
      rw [hg] at h
      simp at h
    | none =>
      rw [hg] at h
      exact (Except.error.inj h).symm
  · intro h
    unfold cerca_per_id at h
    cases hg : hmGet s.reperti id with
    | some r' =>
      rw [hg] at h
      simp at h
    | none =>
      rw [hg] at h
      exact (Except.error.inj h).symm
  · intro h
    unfold aggiungi_nota at h
    cases hg : hmGet s.reperti id with
    | some r' =>
      rw [hg] at h
      simp at h
    | none =>
      rw [hg] at h
      exact (Except.error.inj h).symm

/-- Witness for C10: id-field independence on a concrete insert, key
freshness on the fresh store, and a concrete failed removal. -/
theorem c10_error_taxonomy_witness :
    aggiungi nuovo { testReperto with id := 7 } = aggiungi nuovo testReperto ∧
      hmGet nuovo.reperti nuovo.prossimo_id = none ∧
      (ErroreInventario.RepertoNonTrovato 5 : ErroreInventario) =
        .RepertoNonTrovato 5 :=
  ⟨(c10_error_taxonomy nuovo testReperto 7 5 [] (.RepertoNonTrovato 5)).1,
    (c10_error_taxonomy nuovo testReperto 7 5 [] (.RepertoNonTrovato 5)).2.1
      (by unfold StoreInv; decide),
    (c10_error_taxonomy nuovo testReperto 7 5 [] (.RepertoNonTrovato 5)).2.2.2.1
      (by rfl)⟩

/-- Witness for C9 at a concrete reachable store and stored entry. -/
theorem c9_store_invariant_witness :
    ({ testReperto with id := 1 } : Reperto).id = 1 ∧
      1 < (exec [Op.ins testReperto]).prossimo_id :=
  c9_store_invariant [Op.ins testReperto] (1, { testReperto with id := 1 })
    (by decide)
